import Mathlib

/-!
Verification development for the image-captioning batch processor
(`main.py`, `src/config.py`, `src/gemini_client.py`, `src/image_processor.py`,
`src/file_manager.py`).  Python functions are shallowly embedded as
executable Lean definitions; timestamps are modelled as rationals, the
thread-pool interleavings as explicit transition systems, and the
external Gemini service as an oracle assigning an outcome to every
attempt.
-/

namespace Captioner

/-! ## ASCII string utilities

Python `str.lower()` restricted to ASCII (every phrase in the
configuration is ASCII), and substring containment (`in` on Python
strings) as an executable sliding-window search. -/

/-- ASCII lower-casing of a single character, as Python `str.lower()`
acts on the ASCII range. -/
def lowerChar (c : Char) : Char :=
  if 65 ≤ c.toNat ∧ c.toNat ≤ 90 then Char.ofNat (c.toNat + 32) else c

/-- ASCII lower-casing of a character list. -/
def strLower (s : List Char) : List Char := s.map lowerChar

/-- Does `needle` occur at the very start of `hay`? -/
def matchAt : List Char → List Char → Bool
  | [], _ => true
  | _ :: _, [] => false
  | a :: as, b :: bs => a == b && matchAt as bs

/-- Does `needle` occur anywhere inside `hay`?  This is Python
`needle in hay` on strings. -/
def hasSubstr (needle : List Char) : List Char → Bool
  | [] => matchAt needle []
  | hay@(_ :: rest) => matchAt needle hay || hasSubstr needle rest

theorem matchAt_append {n l : List Char} (m : List Char)
    (h : matchAt n l = true) : matchAt n (l ++ m) = true := by
  induction n generalizing l with
  | nil => simp [matchAt]
  | cons a as ih =>
    cases l with
    | nil => simp [matchAt] at h
    | cons b bs =>
      simp only [matchAt, Bool.and_eq_true] at h ⊢
      exact ⟨h.1, ih h.2⟩

theorem hasSubstr_append_left {n l : List Char} (m : List Char)
    (h : hasSubstr n l = true) : hasSubstr n (l ++ m) = true := by
  induction l with
  | nil =>
    cases n with
    | nil => cases m <;> simp [hasSubstr, matchAt]
    | cons a as => simp [hasSubstr, matchAt] at h
  | cons b bs ih =>
    simp only [hasSubstr, Bool.or_eq_true] at h
    rcases h with h | h
    · simp only [List.cons_append, hasSubstr, Bool.or_eq_true]
      exact Or.inl (matchAt_append m h)
    · simp only [List.cons_append, hasSubstr, Bool.or_eq_true]
      exact Or.inr (ih h)

theorem strLower_append (a b : List Char) :
    strLower (a ++ b) = strLower a ++ strLower b := by
  simp [strLower]

/-- Substring containment on `String`s. -/
def hasSubstrStr (needle hay : String) : Bool :=
  hasSubstr needle.data hay.data

theorem string_data_append (a b : String) : (a ++ b).data = a.data ++ b.data := rfl

/-! ## `src/config.py`: the two phrase sets -/

/-- `ERROR_MESSAGES` from `src/config.py`, verbatim. -/
def ERROR_MESSAGES : List String :=
  [ "An internal error has occurred. Please retry or report in https://developers.generativeai.google/guide/troubleshooting"
  , "Error in process_and_save for"
  , "500 An internal error has occurred"
  , "500 INTERNAL"
  , "503 Service Unavailable"
  , "Server is overloaded"
  , "Error processing"
  , "error"
  , "Max retries"
  , "Error processing with Gemini"
  , "RESOURCE_EXHAUSTED."
  , "The model is overloaded."
  ]

/-- `RATE_LIMIT_MESSAGES` from `src/config.py`, verbatim. -/
def RATE_LIMIT_MESSAGES : List String :=
  [ "Error code: 429"
  , "insufficient_quota"
  , "exceeded your current quota"
  , "Rate limit exceeded"
  , "Too many requests"
  , "RESOURCE_EXHAUSTED"
  , "Quota exceeded"
  , "quota_exceeded"
  , "rate_limit_exceeded"
  ]

namespace ImageProcessor

/-- `ImageProcessor.has_error_content` from `src/image_processor.py`:
lower-case the content and test whether any lowered phrase of
`ERROR_MESSAGES` occurs inside it. -/
def has_error_content (content : String) : Bool :=
  ERROR_MESSAGES.any fun m => hasSubstr (strLower m.data) (strLower content.data)

end ImageProcessor

namespace FileManager

/-- `FileManager.has_error_content` from `src/file_manager.py`: textually
identical to the `ImageProcessor` version. -/
def has_error_content (content : String) : Bool :=
  ERROR_MESSAGES.any fun m => hasSubstr (strLower m.data) (strLower content.data)

end FileManager

theorem has_error_content_agree (content : String) :
    ImageProcessor.has_error_content content = FileManager.has_error_content content := rfl

example : ImageProcessor.has_error_content "A caption about terrors." = true := by decide
example : ImageProcessor.has_error_content "A nice caption." = false := by decide

/-! ## `src/gemini_client.py`: classification, payloads, and the retry loop -/

namespace GeminiClient

/-- `GeminiClient.is_rate_limit_error`: lower-case the error string and
test it against every phrase of `RATE_LIMIT_MESSAGES`, lower-cased. -/
def is_rate_limit_error (error_str : String) : Bool :=
  RATE_LIMIT_MESSAGES.any fun m => hasSubstr (strLower m.data) (strLower error_str.data)

/-- The inline retryable-server check of `process_image_with_gemini`
(line 193): case-sensitive containment of any of the five codes. -/
def is_retryable (error_str : String) : Bool :=
  ["500", "503", "INTERNAL", "UNAVAILABLE", "Server is overloaded"].any
    fun c => hasSubstr c.data error_str.data

/-- `json.dumps({"error": msg})`: the serialized failure payload.  The
JSON escaping that `json.dumps` applies inside `msg` is not modelled; it
never touches the fixed `\x7b"error": "` frame that the payload claims
are about. -/
def jsonError (msg : String) : String :=
  "\x7b\"error\": \"" ++ msg ++ "\"\x7d"

/-- Payload for `response.candidates` empty (line 140). -/
def noCandidatesPayload (img : String) : String :=
  jsonError ("No candidates returned for " ++ img)

/-- Payload for a STOP finish with no content parts (line 152). -/
def noPartsPayload (img : String) : String :=
  jsonError ("No content parts in response for " ++ img)

/-- Payload for a SAFETY finish (line 156). -/
def safetyPayload (img : String) : String :=
  jsonError ("Content blocked by safety filters for " ++ img)

/-- Payload for a MAX_TOKENS finish (line 160). -/
def maxTokensPayload (img : String) : String :=
  jsonError ("Response truncated due to max tokens for " ++ img)

/-- Payload for any other finish reason (line 164). -/
def otherFinishPayload (reason img : String) : String :=
  jsonError ("Unexpected finish reason " ++ reason ++ " for " ++ img)

/-- Payload returned when every credential has been rate limited
(line 190). -/
def allKeysPayload (img error_str : String) : String :=
  jsonError ("All API keys rate limited for " ++ img ++ ": " ++ error_str)

/-- Payload for a non-retryable or budget-exhausted exception
(line 208). -/
def processingErrorPayload (img error_str : String) : String :=
  jsonError ("Error processing with Gemini " ++ img ++ ": " ++ error_str)

/-- Payload of the defensive return after the loop (line 211). -/
def unexpectedLoopPayload (img : String) : String :=
  jsonError ("Unexpected error in retry loop for " ++ img)

/-- One outcome of a single `generate_content` attempt, as the external
service oracle decides it. -/
inductive AttemptOutcome where
  | success (caption : String)
  | noCandidates
  | stopNoParts
  | safetyBlocked
  | maxTokens
  | otherFinish (reason : String)
  | raised (error_str : String)
deriving DecidableEq

/-- The action the `except` handler of `process_image_with_gemini`
takes on an exception. -/
inductive ExcAction where
  | rotateRetry (newIdx : Nat) (newTried : List Nat)
  | allExhausted
  | backoffRetry
  | giveUp
deriving DecidableEq

/-- Python `keys_tried.add(idx)` on a set modelled as a duplicate-free
list. -/
def addTried (idx : Nat) (tried : List Nat) : List Nat :=
  if idx ∈ tried then tried else idx :: tried

/-- The `except` branch of `process_image_with_gemini` (lines 166-208):
first the rate-limit test, rotating while some key is untried in this
call and bailing out once all are tried; only then the retryable-server
test gated by the attempt budget. -/
def handle_raised (numKeys maxRetries attempt idx : Nat) (tried : List Nat)
    (error_str : String) : ExcAction :=
  if is_rate_limit_error error_str then
    let tried' := addTried idx tried
    if tried'.length < numKeys then .rotateRetry ((idx + 1) % numKeys) tried'
    else .allExhausted
  else if is_retryable error_str && decide (attempt < maxRetries) then .backoffRetry
  else .giveUp

/-- Result of one call to `process_image_with_gemini`: the returned text
and the credential index used by each request, in order. -/
structure GemResult where
  payload : String
  requests : List Nat
deriving DecidableEq

/-- The `for attempt in range(max_retries + 1)` loop of
`process_image_with_gemini`, with `fuel` the number of remaining loop
iterations.  Running out of fuel is the fall-through return after the
loop. -/
def runAttempts (img : String) (numKeys maxRetries : Nat)
    (oracle : Nat → AttemptOutcome) :
    Nat → Nat → Nat → List Nat → List Nat → GemResult
  | 0, _, _, _, log => ⟨unexpectedLoopPayload img, log⟩
  | fuel + 1, attempt, idx, tried, log =>
    let log' := log ++ [idx]
    match oracle attempt with
    | .success c => ⟨c, log'⟩
    | .noCandidates => ⟨noCandidatesPayload img, log'⟩
    | .stopNoParts => ⟨noPartsPayload img, log'⟩
    | .safetyBlocked => ⟨safetyPayload img, log'⟩
    | .maxTokens => ⟨maxTokensPayload img, log'⟩
    | .otherFinish r => ⟨otherFinishPayload r img, log'⟩
    | .raised e =>
      match handle_raised numKeys maxRetries attempt idx tried e with
      | .rotateRetry newIdx tried' =>
          runAttempts img numKeys maxRetries oracle fuel (attempt + 1) newIdx tried' log'
      | .allExhausted => ⟨allKeysPayload img e, log'⟩
      | .backoffRetry => runAttempts img numKeys maxRetries oracle fuel (attempt + 1) idx tried log'
      | .giveUp => ⟨processingErrorPayload img e, log'⟩

/-- `GeminiClient.process_image_with_gemini`, starting from the current
key index of the client with an empty `keys_tried` set. -/
def process_image_with_gemini (img : String) (numKeys startIdx maxRetries : Nat)
    (oracle : Nat → AttemptOutcome) : GemResult :=
  runAttempts img numKeys maxRetries oracle (maxRetries + 1) 0 startIdx [] []

/-- `GeminiClient.rotate_api_key` on the current index for a pool of
`numKeys` credentials: the pure rotation `(index + 1) % N`, which is
also the value the method returns. -/
def rotate_api_key (numKeys idx : Nat) : Nat := (idx + 1) % numKeys

/-- `GeminiClient.exponential_backoff_with_jitter` over exact rationals.
The value `u` models the outcome `random.uniform(-jitter_range,
jitter_range)`; claims constrain it by `|u| ≤ delay / 4`. -/
def exponential_backoff_with_jitter (attempt : Nat)
    (base_delay max_delay : ℚ) (jitter : Bool) (u : ℚ) : ℚ :=
  let delay := min (base_delay * 2 ^ attempt) max_delay
  let jittered := if jitter then delay + u else delay
  max jittered (1 / 10)

end GeminiClient

/-! ## `src/gemini_client.py`: the `RateLimiter`

Timestamps are rationals.  The whole critical section — filter, length
test, sleep, append — runs under `self.lock`, so a run of the limiter is
a sequence of atomic admissions.  An admission is described by the pair
`(now, t)`: `now` is the `time.time()` read on entry and `t` the fresh
`time.time()` recorded by the final `append`, so `t` is at least the end
of the sleep, `admitAppendTime`. -/

namespace RateLimiter

structure State where
  max_calls : Nat
  period : ℚ
  calls : List ℚ

/-- The list-comprehension filter: timestamps with
`call > now - period` survive. -/
def surviving (s : State) (now : ℚ) : List ℚ :=
  s.calls.filter fun c => decide (now - s.period < c)

/-- The earliest instant the final `append` can happen: `now` itself
when fewer than `max_calls` timestamps survive, otherwise the end of
`time.sleep(self.calls[0] - (now - self.period))`. -/
def admitAppendTime (s : State) (now : ℚ) : ℚ :=
  if s.max_calls ≤ (surviving s now).length then
    now + ((surviving s now).headD 0 - (now - s.period))
  else now

/-- The state after one admission: the survivors plus the newly recorded
timestamp `t`. -/
def admitOne (s : State) (now t : ℚ) : State :=
  { s with calls := surviving s now ++ [t] }

/-- Number of recorded timestamps with value greater than
`t - period`. -/
def windowCount (s : State) (t : ℚ) : Nat :=
  s.calls.countP fun c => decide (t - s.period < c)

/-- Fold a sequence of admissions. -/
def admitRun (s : State) : List (ℚ × ℚ) → State
  | [] => s
  | (now, t) :: rest => admitRun (admitOne s now t) rest

/-- A schedule is valid when the lock serializes the admissions: each
entry read `now` happens after the previous append `last`, and each
recorded timestamp `t` is no earlier than the end of the mandated
sleep. -/
def validSchedule (s : State) (last : ℚ) : List (ℚ × ℚ) → Bool
  | [] => true
  | (now, t) :: rest =>
    decide (last ≤ now) && decide (admitAppendTime s now ≤ t) &&
      validSchedule (admitOne s now t) t rest

/-- The recording instant of the last admission of a run (`t0` for the
empty run). -/
def lastTime (t0 : ℚ) : List (ℚ × ℚ) → ℚ
  | [] => t0
  | (_, t) :: rest => lastTime t rest

end RateLimiter

/-! ## `src/image_processor.py`: `process_and_save`

The worker body is embedded as a function of the inputs that decide its
control flow: the shutdown flag, the text returned by
`process_image_with_gemini`, whether a shared `processed_files` set and
a `checkpoint_file` were passed, and at which of its fallible operations
an exception is raised (the service call, the output write, or the
`pickle.dump` of the checkpoint).  The outcome records the externally
visible effects. -/

namespace ImageProcessor

/-- Where, if anywhere, an exception is raised inside the `try` block of
`process_and_save`. -/
inductive RaisePoint where
  | noRaise
  | atServiceCall
  | atOutputWrite
  | atCheckpointDump
deriving DecidableEq

/-- Externally visible effects of one `process_and_save` call. -/
structure PasOutcome where
  propagated : Bool
  loggedError : Bool
  wroteOutput : Bool
  added : Bool
  savedCheckpoint : Bool
  pbarUpdates : Nat
deriving DecidableEq

/-- `ImageProcessor.process_and_save` (lines 37-72).  The `finally`
clause updates the progress bar exactly once on every path; the broad
`except` clause turns any raised exception into a log line. -/
def process_and_save (shutdown : Bool) (resultText : String)
    (haveProcessedSet haveCheckpointFile : Bool) (rp : RaisePoint) : PasOutcome :=
  if shutdown then ⟨false, false, false, false, false, 1⟩
  else if rp = .atServiceCall then ⟨false, true, false, false, false, 1⟩
  else if rp = .atOutputWrite then ⟨false, true, false, false, false, 1⟩
  else
    let has_errors := has_error_content resultText
    if !has_errors && haveProcessedSet then
      if rp = .atCheckpointDump && haveCheckpointFile then
        ⟨false, true, true, true, false, 1⟩
      else ⟨false, false, true, true, haveCheckpointFile, 1⟩
    else ⟨false, false, true, false, false, 1⟩

end ImageProcessor

/-! ## `main.py`: the tail of `process_directory`

Only what the checkpoint-lifecycle claim needs: an abstract filesystem
holding the checkpoint (present or absent) and the written output texts,
the error scan over those outputs, and the final block of
`process_directory` (lines 90-100). -/

namespace Main

structure FS where
  checkpoint : Option (List String)
  outputs : List (String × String)
deriving DecidableEq

/-- `FileManager.scan_for_error_files` over the abstract outputs: the
paths whose content the shared classifier flags. -/
def scan_for_error_files (outputs : List (String × String)) : List String :=
  (outputs.filter fun o => FileManager.has_error_content o.2).map Prod.fst

/-- `FileManager.remove_checkpoint`: delete the file when it exists,
do nothing otherwise. -/
def remove_checkpoint (fs : FS) : FS := { fs with checkpoint := none }

/-- The final block of `process_directory`: when no shutdown was
requested, scan the outputs for residual errors (the result only feeds
a log line) and then remove the checkpoint; when shutdown was
requested, leave the checkpoint alone.  Returns the final filesystem
and the list of still-erroring outputs the scan reported. -/
def process_directory_finalize (shutdown : Bool) (fs : FS) : FS × List String :=
  if shutdown then (fs, [])
  else (remove_checkpoint fs, scan_for_error_files fs.outputs)

end Main

/-! ## `src/image_processor.py`: the lock of the add-then-save block

`process_and_save` guards the `processed_files.add` / `pickle.dump` pair
with `with threading.Lock():` (line 56), which constructs a brand-new
lock object on every call.  Two workers are modelled as a transition
system: each must hold its lock through the add-then-save critical
section, and a lock can only be acquired when no other worker holds a
lock with the same identity. -/

namespace Locking

/-- Program counter of one worker around the critical section. -/
inductive WStep where
  | start
  | locked
  | added
  | done
deriving DecidableEq

/-- Is the worker inside the add-then-save critical section, holding its
lock? -/
def inCS : WStep → Prop
  | .locked => True
  | .added => True
  | _ => False

instance : DecidablePred inCS := fun w => by
  cases w <;> simp [inCS] <;> infer_instance

structure TwoWorkers where
  w0 : WStep
  w1 : WStep
deriving DecidableEq

/-- The lock identity a given `process_and_save` invocation uses:
`with threading.Lock():` constructs a fresh lock per call, so call `i`
gets lock `i`. -/
def processAndSaveLockAlloc (callId : Nat) : Nat := callId

/-- Modelled from the spec: "Checkpoint writes are serialized by a lock"
and "one single lock shared by all workers" — every call uses the one
shared lock `0`.  Missing from the source, which allocates a fresh lock
per call; kept for comparison with `processAndSaveLockAlloc`. -/
def specSharedLock (_callId : Nat) : Nat := 0

/-- Interleaving semantics: worker `i` may acquire its lock `lockOf i`
only while no other worker inside its critical section holds a lock of
the same identity; adding and the save-then-release are local steps. -/
inductive Step (lockOf : Nat → Nat) : TwoWorkers → TwoWorkers → Prop
  | acquire0 {s : TwoWorkers} :
      s.w0 = .start → (inCS s.w1 → lockOf 1 ≠ lockOf 0) →
      Step lockOf s ⟨.locked, s.w1⟩
  | add0 {s : TwoWorkers} : s.w0 = .locked → Step lockOf s ⟨.added, s.w1⟩
  | saveRelease0 {s : TwoWorkers} : s.w0 = .added → Step lockOf s ⟨.done, s.w1⟩
  | acquire1 {s : TwoWorkers} :
      s.w1 = .start → (inCS s.w0 → lockOf 0 ≠ lockOf 1) →
      Step lockOf s ⟨s.w0, .locked⟩
  | add1 {s : TwoWorkers} : s.w1 = .locked → Step lockOf s ⟨s.w0, .added⟩
  | saveRelease1 {s : TwoWorkers} : s.w1 = .added → Step lockOf s ⟨s.w0, .done⟩

/-- Reachability from the initial state where both workers are about to
enter `process_and_save`. -/
def Reach (lockOf : Nat → Nat) (s : TwoWorkers) : Prop :=
  Relation.ReflTransGen (Step lockOf) ⟨.start, .start⟩ s

end Locking

/-! ## Supporting lemmas -/

theorem hasSubstr_strLower_frame (n : List Char) (pre mid suf : String)
    (h : hasSubstr n (strLower pre.data) = true) :
    hasSubstr n (strLower (pre ++ mid ++ suf).data) = true := by
  have hd : (pre ++ mid ++ suf).data = pre.data ++ (mid.data ++ suf.data) := by
    rw [string_data_append, string_data_append, List.append_assoc]
  rw [hd, strLower_append]
  exact hasSubstr_append_left _ h

theorem has_error_content_of_substr (content : String)
    (h : hasSubstr (strLower "error".data) (strLower content.data) = true) :
    ImageProcessor.has_error_content content = true := by
  unfold ImageProcessor.has_error_content
  refine List.any_eq_true.mpr ⟨"error", ?_, h⟩
  simp [ERROR_MESSAGES]

theorem has_error_content_jsonError (msg : String) :
    ImageProcessor.has_error_content (GeminiClient.jsonError msg) = true := by
  apply has_error_content_of_substr
  exact hasSubstr_strLower_frame _ "\x7b\"error\": \"" msg "\"\x7d" (by decide)

theorem process_and_save_error_not_added (resultText : String) (hcf : Bool)
    (h : ImageProcessor.has_error_content resultText = true) :
    (ImageProcessor.process_and_save false resultText true hcf .noRaise).added = false := by
  simp [ImageProcessor.process_and_save, h]

/-! ## Claims -/

/-- C10: the phrase set contains the bare word "error", so
`has_error_content` (identically in `ImageProcessor` and `FileManager`)
returns `true` for any output containing the substring "error" in any
letter case at any position; such an output is not added to the
processed set by `process_and_save`, and every scan of outputs
containing it reports it as erroring. -/
theorem error_substring_blocks_checkpoint (content : String)
    (h : hasSubstr (strLower "error".data) (strLower content.data) = true) :
    ImageProcessor.has_error_content content = true ∧
    FileManager.has_error_content content = true ∧
    (∀ hcf : Bool,
      (ImageProcessor.process_and_save false content true hcf .noRaise).added = false) ∧
    ∀ (path : String) (outputs : List (String × String)),
      (path, content) ∈ outputs → path ∈ Main.scan_for_error_files outputs := by
  have h1 := has_error_content_of_substr content h
  refine ⟨h1, (has_error_content_agree content) ▸ h1, ?_, ?_⟩
  · intro hcf
    exact process_and_save_error_not_added content hcf h1
  · intro path outputs hmem
    unfold Main.scan_for_error_files
    refine List.mem_map.mpr ⟨(path, content), List.mem_filter.mpr ⟨hmem, ?_⟩, rfl⟩
    simpa [has_error_content_agree] using h1

/-- C10 witness: the caption "Two terrors met." contains "error" inside
the word "terrors" and is therefore classified as erroring, never
checkpointed, and flagged by the scan. -/
theorem error_substring_blocks_checkpoint_witness :
    hasSubstr (strLower "error".data) (strLower "Two terrors met.".data) = true ∧
    ImageProcessor.has_error_content "Two terrors met." = true ∧
    (ImageProcessor.process_and_save false "Two terrors met." true true .noRaise).added
      = false ∧
    "a.txt" ∈ Main.scan_for_error_files [("a.txt", "Two terrors met.")] := by
  have h : hasSubstr (strLower "error".data) (strLower "Two terrors met.".data) = true := by
    decide
  obtain ⟨h1, _, h3, h4⟩ := error_substring_blocks_checkpoint "Two terrors met." h
  exact ⟨h, h1, h3 true, h4 "a.txt" [("a.txt", "Two terrors met.")] (by simp)⟩

/-- C9: every failure payload `process_image_with_gemini` can return —
no candidates, empty content parts, safety block, max-tokens
truncation, unexpected finish reason, all-credentials-exhausted,
exhausted/non-retryable error, and the defensive loop fall-through —
is a JSON string containing the substring "error", which is itself a
phrase of `ERROR_MESSAGES`; hence `has_error_content` returns `true` on
it and `process_and_save` never adds such an item to the processed
set. -/
theorem failure_payloads_never_checkpointed
    (img reason error_str : String) (hcf : Bool) :
    "error" ∈ ERROR_MESSAGES ∧
    [ GeminiClient.noCandidatesPayload img
    , GeminiClient.noPartsPayload img
    , GeminiClient.safetyPayload img
    , GeminiClient.maxTokensPayload img
    , GeminiClient.otherFinishPayload reason img
    , GeminiClient.allKeysPayload img error_str
    , GeminiClient.processingErrorPayload img error_str
    , GeminiClient.unexpectedLoopPayload img
    ].all (fun p => ImageProcessor.has_error_content p &&
        !(ImageProcessor.process_and_save false p true hcf .noRaise).added) = true := by
  constructor
  · simp [ERROR_MESSAGES]
  · have key : ∀ m : String,
        ImageProcessor.has_error_content (GeminiClient.jsonError m) = true ∧
          (!(ImageProcessor.process_and_save false (GeminiClient.jsonError m)
              true hcf .noRaise).added) = true := by
      intro m
      have h1 := has_error_content_jsonError m
      have h2 := process_and_save_error_not_added (GeminiClient.jsonError m) hcf h1
      exact ⟨h1, by simp [h2]⟩
    simp only [List.all_cons, List.all_nil, Bool.and_eq_true]
    exact ⟨key _, key _, key _, key _, key _, key _, key _, key _, trivial⟩

/-- C5: whenever the failure message matches a rate-limit phrase, the
exception handler of `process_image_with_gemini` takes a RateLimited
action — rotate to an untried credential or report universal
exhaustion — and never the backoff or give-up branches, because the
rate-limit test is applied before the retryable-server test; this holds
even when the message also matches the generic transient-server
codes. -/
theorem rate_limit_priority (numKeys maxRetries attempt idx : Nat)
    (tried : List Nat) (e : String)
    (h : GeminiClient.is_rate_limit_error e = true) :
    (GeminiClient.handle_raised numKeys maxRetries attempt idx tried e =
        .rotateRetry ((idx + 1) % numKeys) (GeminiClient.addTried idx tried) ∨
      GeminiClient.handle_raised numKeys maxRetries attempt idx tried e =
        .allExhausted) ∧
    GeminiClient.handle_raised numKeys maxRetries attempt idx tried e ≠
      .backoffRetry ∧
    GeminiClient.handle_raised numKeys maxRetries attempt idx tried e ≠ .giveUp := by
  unfold GeminiClient.handle_raised
  rw [h]
  simp only [if_true]
  split <;> simp

/-- C5 witness: the message "RESOURCE_EXHAUSTED 500 INTERNAL Server is
overloaded" matches both a rate-limit phrase and the generic
transient-server codes, and the handler still takes a RateLimited
action. -/
theorem rate_limit_priority_witness :
    GeminiClient.is_rate_limit_error
        "RESOURCE_EXHAUSTED 500 INTERNAL Server is overloaded" = true ∧
    GeminiClient.is_retryable
        "RESOURCE_EXHAUSTED 500 INTERNAL Server is overloaded" = true ∧
    GeminiClient.handle_raised 2 5 0 0 []
        "RESOURCE_EXHAUSTED 500 INTERNAL Server is overloaded" ≠ .backoffRetry ∧
    GeminiClient.handle_raised 2 5 0 0 []
        "RESOURCE_EXHAUSTED 500 INTERNAL Server is overloaded" ≠ .giveUp := by
  have h := rate_limit_priority 2 5 0 0 []
    "RESOURCE_EXHAUSTED 500 INTERNAL Server is overloaded" (by decide)
  exact ⟨by decide, by decide, h.2.1, h.2.2⟩

/-- C2: with 3 credentials, `max_retries = 1`, and every attempt raising
a rate-limit error, the `continue` taken after each rotation still
advances the `for attempt in range(max_retries + 1)` counter, so the
loop ends after trying only credentials 0 and 1; credential 2 is never
tried and the call returns the defensive "Unexpected error in retry
loop" payload instead of the "All API keys rate limited" payload —
contradicting the in-code comments "Try with new key immediately (do
not count as retry)" and "Should never reach here". -/
theorem rotation_consumes_attempt_budget :
    GeminiClient.process_image_with_gemini "img.jpg" 3 0 1
        (fun _ => .raised "Error code: 429") =
      ⟨GeminiClient.unexpectedLoopPayload "img.jpg", [0, 1]⟩ ∧
    2 ∉ (GeminiClient.process_image_with_gemini "img.jpg" 3 0 1
        (fun _ => .raised "Error code: 429")).requests ∧
    GeminiClient.unexpectedLoopPayload "img.jpg" ≠
      GeminiClient.allKeysPayload "img.jpg" "Error code: 429" := by
  refine ⟨by decide, ?_, by decide⟩
  intro hmem
  rw [show GeminiClient.process_image_with_gemini "img.jpg" 3 0 1
        (fun _ => .raised "Error code: 429") =
      ⟨GeminiClient.unexpectedLoopPayload "img.jpg", [0, 1]⟩ from by decide] at hmem
  simp at hmem

theorem backoff_eval (attempt : Nat) (b m : ℚ) (j : Bool) (u : ℚ) :
    GeminiClient.exponential_backoff_with_jitter attempt b m j u =
      max (if j then min (b * 2 ^ attempt) m + u else min (b * 2 ^ attempt) m)
        (1 / 10) := rfl

/-- C6 counterexample: with jitter on, base 1/20, attempt 0, max delay
60 and jitter draw 0 (which respects the ±25 percent range), the 0.1
floor makes the returned delay 1/10, which is outside the ±25 percent
band around min(base·2^attempt, max_delay) = 1/20. -/
theorem backoff_floor_leaves_jitter_band :
    |(0 : ℚ)| ≤ min ((1 / 20 : ℚ) * 2 ^ 0) 60 / 4 ∧
    GeminiClient.exponential_backoff_with_jitter 0 (1 / 20) 60 true 0 = 1 / 10 ∧
    ¬ |GeminiClient.exponential_backoff_with_jitter 0 (1 / 20) 60 true 0 -
        min ((1 / 20 : ℚ) * 2 ^ 0) 60| ≤ min ((1 / 20 : ℚ) * 2 ^ 0) 60 / 4 := by
  have hmin : min ((1 / 20 : ℚ) * 2 ^ 0) 60 = 1 / 20 := by
    rw [min_eq_left] <;> norm_num
  have hval : GeminiClient.exponential_backoff_with_jitter 0 (1 / 20) 60 true 0
      = 1 / 10 := by
    rw [backoff_eval, if_pos rfl, hmin, add_zero, max_eq_right (by norm_num)]
  refine ⟨by rw [hmin]; norm_num, hval, ?_⟩
  rw [hval, hmin]
  rw [show |(1 : ℚ) / 10 - 1 / 20| = 1 / 20 from by
    rw [show (1 : ℚ) / 10 - 1 / 20 = 1 / 20 from by norm_num]
    exact abs_of_pos (by norm_num)]
  norm_num

/-- C6 amended: with jitter off the function returns exactly
min(base·2^attempt, max_delay) whenever that value is at least 1/10;
with jitter on and a jitter draw within ±25 percent, the result is
never below 1/10, and it lies within ±25 percent of
min(base·2^attempt, max_delay) provided that value is at least 2/25
(the exact threshold the 0.1 floor forces). -/
theorem backoff_delay_bounds (attempt : Nat) (base_delay max_delay u : ℚ)
    (hu : |u| ≤ min (base_delay * 2 ^ attempt) max_delay / 4) :
    ((1 : ℚ) / 10 ≤ min (base_delay * 2 ^ attempt) max_delay →
      GeminiClient.exponential_backoff_with_jitter attempt base_delay max_delay false u
        = min (base_delay * 2 ^ attempt) max_delay) ∧
    (1 : ℚ) / 10 ≤
      GeminiClient.exponential_backoff_with_jitter attempt base_delay max_delay true u ∧
    ((2 : ℚ) / 25 ≤ min (base_delay * 2 ^ attempt) max_delay →
      |GeminiClient.exponential_backoff_with_jitter attempt base_delay max_delay true u -
          min (base_delay * 2 ^ attempt) max_delay| ≤
        min (base_delay * 2 ^ attempt) max_delay / 4) := by
  set d : ℚ := min (base_delay * 2 ^ attempt) max_delay with hd
  obtain ⟨hul, hur⟩ := abs_le.mp hu
  refine ⟨?_, ?_, ?_⟩
  · intro hfloor
    rw [backoff_eval, if_neg (by simp), ← hd]
    exact max_eq_left hfloor
  · rw [backoff_eval]
    exact le_max_right _ _
  · intro hlow
    rw [backoff_eval, if_pos rfl, ← hd]
    rcases le_total (1 / 10 : ℚ) (d + u) with hcase | hcase
    · rw [max_eq_left hcase]
      rw [abs_le]
      constructor <;> linarith
    · rw [max_eq_right hcase]
      rw [abs_le]
      constructor <;> linarith

/-- C6 witness: attempt 0, base 1, max delay 60, jitter draw 0. -/
theorem backoff_delay_bounds_witness :
    |(0 : ℚ)| ≤ min ((1 : ℚ) * 2 ^ 0) 60 / 4 ∧
    ((1 : ℚ) / 10 ≤ min ((1 : ℚ) * 2 ^ 0) 60 →
      GeminiClient.exponential_backoff_with_jitter 0 1 60 false 0
        = min ((1 : ℚ) * 2 ^ 0) 60) ∧
    (1 : ℚ) / 10 ≤ GeminiClient.exponential_backoff_with_jitter 0 1 60 true 0 ∧
    ((2 : ℚ) / 25 ≤ min ((1 : ℚ) * 2 ^ 0) 60 →
      |GeminiClient.exponential_backoff_with_jitter 0 1 60 true 0 -
          min ((1 : ℚ) * 2 ^ 0) 60| ≤ min ((1 : ℚ) * 2 ^ 0) 60 / 4) := by
  have hu : |(0 : ℚ)| ≤ min ((1 : ℚ) * 2 ^ 0) 60 / 4 := by
    rw [min_eq_left] <;> norm_num
  exact ⟨hu, backoff_delay_bounds 0 1 60 0 hu⟩

/-- The current key index after `j` linearized calls of
`rotate_api_key`, starting from `startIdx`; this is also the "before"
index observed by rotation number `j` (0-based). -/
def rotateIter (numKeys startIdx j : Nat) : Nat :=
  (GeminiClient.rotate_api_key numKeys)^[j] startIdx

theorem rotateIter_eq (numKeys startIdx : Nat) (h : startIdx < numKeys) :
    ∀ j, rotateIter numKeys startIdx j = (startIdx + j) % numKeys := by
  intro j
  induction j with
  | zero => simp [rotateIter, Nat.mod_eq_of_lt h]
  | succ j ih =>
    unfold rotateIter at ih ⊢
    rw [Function.iterate_succ_apply', ih, GeminiClient.rotate_api_key,
      Nat.mod_add_mod, Nat.add_assoc]

/-- C7 counterexample: with a single credential (N = 1, allowed by the
claim), the first and second linearized rotations both observe the
"before" index 0, so rotations do not observe pairwise distinct
"before" indices. -/
theorem rotation_same_before_index :
    rotateIter 1 0 0 = 0 ∧ rotateIter 1 0 1 = 0 ∧
    rotateIter 1 0 0 = rotateIter 1 0 1 := by
  refine ⟨rfl, ?_, ?_⟩ <;>
    simp [rotateIter, GeminiClient.rotate_api_key]

/-- C7 amended: `rotate_api_key` is the pure function (index + 1) mod N
and returns the new index; N consecutive rotations return the index to
its original value; and within any run of at most N consecutive
linearized rotations, any two distinct rotations observe distinct
"before" indices (unrestricted pairwise distinctness fails once
rotations wrap, e.g. at N = 1). -/
theorem rotation_algebra (numKeys startIdx k j1 j2 : Nat)
    (hstart : startIdx < numKeys) (hj : j1 < j2) (hk : j2 < k)
    (hkN : k ≤ numKeys) :
    rotateIter numKeys startIdx numKeys = startIdx ∧
    rotateIter numKeys startIdx (j1 + 1) =
      GeminiClient.rotate_api_key numKeys (rotateIter numKeys startIdx j1) ∧
    rotateIter numKeys startIdx j1 ≠ rotateIter numKeys startIdx j2 := by
  refine ⟨?_, ?_, ?_⟩
  · rw [rotateIter_eq numKeys startIdx hstart, Nat.add_mod_right,
      Nat.mod_eq_of_lt hstart]
  · unfold rotateIter
    rw [Function.iterate_succ_apply']
  · rw [rotateIter_eq numKeys startIdx hstart, rotateIter_eq numKeys startIdx hstart]
    intro hmod
    have hmeq : j1 ≡ j2 [MOD numKeys] :=
      (Nat.ModEq.add_left_cancel' startIdx hmod)
    have hj1 : j1 < numKeys := lt_of_lt_of_le (lt_trans hj hk) hkN
    have hj2 : j2 < numKeys := lt_of_lt_of_le hk hkN
    have : j1 = j2 := by
      have := hmeq
      unfold Nat.ModEq at this
      rwa [Nat.mod_eq_of_lt hj1, Nat.mod_eq_of_lt hj2] at this
    omega

/-- C7 witness: a pool of 3 credentials, start index 0, window of 3
rotations, rotations 0 and 2. -/
theorem rotation_algebra_witness :
    (0 < 3 ∧ (0 : Nat) < 2 ∧ 2 < 3 ∧ 3 ≤ 3) ∧
    rotateIter 3 0 3 = 0 ∧
    rotateIter 3 0 (0 + 1) = GeminiClient.rotate_api_key 3 (rotateIter 3 0 0) ∧
    rotateIter 3 0 0 ≠ rotateIter 3 0 2 := by
  have h := rotation_algebra 3 0 3 0 2 (by decide) (by decide) (by decide) (by decide)
  exact ⟨⟨by decide, by decide, by decide, by decide⟩, h.1, h.2.1, h.2.2⟩

/-- C1 counterexample: an uninterrupted run whose post-run scan still
reports an erroring output nevertheless has its checkpoint file
removed. -/
theorem checkpoint_removed_despite_errors :
    (Main.process_directory_finalize false
        ⟨some ["a.jpg"],
          [("a.txt", GeminiClient.processingErrorPayload "a.jpg" "boom")]⟩).2 =
      ["a.txt"] ∧
    (Main.process_directory_finalize false
        ⟨some ["a.jpg"],
          [("a.txt", GeminiClient.processingErrorPayload "a.jpg" "boom")]⟩).1.checkpoint =
      none := by
  constructor
  · have herr : FileManager.has_error_content
        (GeminiClient.processingErrorPayload "a.jpg" "boom") = true := by
      rw [← has_error_content_agree]
      exact has_error_content_jsonError _
    simp [Main.process_directory_finalize, Main.scan_for_error_files,
      Main.remove_checkpoint, herr]
  · simp [Main.process_directory_finalize, Main.remove_checkpoint]

/-- C1 amended: at the end of an uninterrupted run, `process_directory`
removes the checkpoint file unconditionally — whether or not the
post-run scan reports erroring outputs; the checkpoint survives exactly
when shutdown was requested. -/
theorem checkpoint_removal_unconditional (fs : Main.FS) :
    (Main.process_directory_finalize false fs).1.checkpoint = none ∧
    Main.process_directory_finalize true fs = (fs, []) := by
  simp [Main.process_directory_finalize, Main.remove_checkpoint]

/-- C8 counterexample: when the result is a clean caption and the
exception is raised by the checkpoint `pickle.dump`, the exception is
caught (it does not propagate) but the identifier has already been
added to the shared processed set. -/
theorem dump_exception_after_add :
    (ImageProcessor.process_and_save false "A nice caption." true true
        .atCheckpointDump).loggedError = true ∧
    (ImageProcessor.process_and_save false "A nice caption." true true
        .atCheckpointDump).propagated = false ∧
    (ImageProcessor.process_and_save false "A nice caption." true true
        .atCheckpointDump).added = true := by
  decide

/-- C8 amended: an exception raised inside `process_and_save` never
propagates out of the worker, the progress counter advances exactly
once, and no checkpoint save completes for the item; when the exception
arises at the service call or the output write the identifier is also
not added to the processed set (an exception inside the checkpoint dump
happens after the addition). -/
theorem worker_exception_containment (resultText : String)
    (hps hcf : Bool) (rp : ImageProcessor.RaisePoint) (h : rp ≠ .noRaise) :
    (ImageProcessor.process_and_save false resultText hps hcf rp).propagated
        = false ∧
    (ImageProcessor.process_and_save false resultText hps hcf rp).pbarUpdates = 1 ∧
    (ImageProcessor.process_and_save false resultText hps hcf rp).savedCheckpoint
        = false ∧
    ((rp = .atServiceCall ∨ rp = .atOutputWrite) →
      (ImageProcessor.process_and_save false resultText hps hcf rp).loggedError
          = true ∧
      (ImageProcessor.process_and_save false resultText hps hcf rp).added = false) := by
  cases rp with
  | noRaise => exact absurd rfl h
  | atServiceCall => simp [ImageProcessor.process_and_save]
  | atOutputWrite => simp [ImageProcessor.process_and_save]
  | atCheckpointDump =>
    cases hE : ImageProcessor.has_error_content resultText <;> cases hps <;>
      cases hcf <;> simp [ImageProcessor.process_and_save, hE]

/-- C8 witness: a worker whose service call raises. -/
theorem worker_exception_containment_witness :
    (ImageProcessor.RaisePoint.atServiceCall ≠ ImageProcessor.RaisePoint.noRaise) ∧
    (ImageProcessor.process_and_save false "A nice caption." true true
        .atServiceCall).propagated = false ∧
    (ImageProcessor.process_and_save false "A nice caption." true true
        .atServiceCall).pbarUpdates = 1 ∧
    (ImageProcessor.process_and_save false "A nice caption." true true
        .atServiceCall).savedCheckpoint = false ∧
    ((ImageProcessor.RaisePoint.atServiceCall = .atServiceCall ∨
        ImageProcessor.RaisePoint.atServiceCall = .atOutputWrite) →
      (ImageProcessor.process_and_save false "A nice caption." true true
          .atServiceCall).loggedError = true ∧
      (ImageProcessor.process_and_save false "A nice caption." true true
          .atServiceCall).added = false) := by
  exact ⟨by decide,
    worker_exception_containment "A nice caption." true true .atServiceCall (by decide)⟩

/-- With the one shared lock the spec describes, the two workers are
never simultaneously inside the add-then-save critical section. -/
theorem shared_lock_mutual_exclusion (s : Locking.TwoWorkers)
    (h : Locking.Reach Locking.specSharedLock s) :
    ¬(Locking.inCS s.w0 ∧ Locking.inCS s.w1) := by
  induction h with
  | refl => simp [Locking.inCS]
  | tail _ step ih =>
    cases step with
    | acquire0 h0 hguard =>
      intro hcs
      exact hguard hcs.2 rfl
    | add0 h0 =>
      intro hcs
      rename_i s' _
      exact ih ⟨by rw [h0]; trivial, hcs.2⟩
    | saveRelease0 h0 =>
      intro hcs
      exact hcs.1
    | acquire1 h1 hguard =>
      intro hcs
      exact hguard hcs.1 rfl
    | add1 h1 =>
      intro hcs
      exact ih ⟨hcs.1, by rw [h1]; trivial⟩
    | saveRelease1 h1 =>
      intro hcs
      exact hcs.2

/-- C3: because `process_and_save` executes `with threading.Lock():`,
allocating a fresh lock object per call, two concurrent workers can
both be inside the add-then-save critical section at once — the state
where both hold their (distinct) locks is reachable, so the add and
checkpoint save are not serialized by one shared lock. -/
theorem fresh_lock_defeats_mutual_exclusion :
    Locking.Reach Locking.processAndSaveLockAlloc ⟨.locked, .locked⟩ ∧
    Locking.inCS (Locking.TwoWorkers.mk .locked .locked).w0 ∧
    Locking.inCS (Locking.TwoWorkers.mk .locked .locked).w1 := by
  refine ⟨?_, trivial, trivial⟩
  have s1 : Locking.Step Locking.processAndSaveLockAlloc
      ⟨.start, .start⟩ ⟨.locked, .start⟩ :=
    Locking.Step.acquire0 rfl (fun hcs => absurd hcs (by simp [Locking.inCS]))
  have s2 : Locking.Step Locking.processAndSaveLockAlloc
      ⟨.locked, .start⟩ ⟨.locked, .locked⟩ :=
    Locking.Step.acquire1 rfl
      (fun _ => by simp [Locking.processAndSaveLockAlloc])
  exact Relation.ReflTransGen.tail (Relation.ReflTransGen.tail
    Relation.ReflTransGen.refl s1) s2

/-! ## Rate limiter lemmas -/

namespace RateLimiter

theorem windowCount_eq_surviving_length (s : State) (now : ℚ) :
    windowCount s now = (surviving s now).length := by
  simp [windowCount, surviving, List.countP_eq_length_filter]

theorem surviving_mem_gt {s : State} {now c : ℚ} (h : c ∈ surviving s now) :
    now - s.period < c := by
  have := (List.mem_filter.mp h).2
  exact of_decide_eq_true this

theorem surviving_subset {s : State} {now : ℚ} :
    ∀ c ∈ surviving s now, c ∈ s.calls := fun _ h => (List.mem_filter.mp h).1

theorem now_le_admitAppendTime (s : State) (now : ℚ) (hmc : 0 < s.max_calls) :
    now ≤ admitAppendTime s now := by
  unfold admitAppendTime
  split
  · rename_i hlen
    have hne : surviving s now ≠ [] := by
      intro hnil
      rw [hnil] at hlen
      simp at hlen
      omega
    obtain ⟨h, rest, hcons⟩ := List.exists_cons_of_ne_nil hne
    have hmem : h ∈ surviving s now := by rw [hcons]; exact List.mem_cons_self _ _
    have := surviving_mem_gt hmem
    have hh : (surviving s now).headD 0 = h := by rw [hcons]; rfl
    rw [hh]
    linarith
  · exact le_refl now

/-- One admission preserves the window invariant: the new timestamp
list is sorted, bounded by the recording instant `t`, and at every
instant from `t` on at most `max_calls` timestamps are inside the
trailing window. -/
theorem admit_inv (s : State) (now t : ℚ)
    (hmc : 0 < s.max_calls)
    (hsort : s.calls.Sorted (· ≤ ·))
    (hbdd : ∀ c ∈ s.calls, c ≤ now)
    (hcnt : windowCount s now ≤ s.max_calls)
    (ht : admitAppendTime s now ≤ t) :
    (admitOne s now t).calls.Sorted (· ≤ ·) ∧
    (∀ c ∈ (admitOne s now t).calls, c ≤ t) ∧
    ∀ u, t ≤ u → windowCount (admitOne s now t) u ≤ s.max_calls := by
  have hnow_t : now ≤ t := le_trans (now_le_admitAppendTime s now hmc) ht
  have hsurv_bdd : ∀ c ∈ surviving s now, c ≤ t :=
    fun c hc => le_trans (hbdd c (surviving_subset c hc)) hnow_t
  have hsurv_len : (surviving s now).length ≤ s.max_calls := by
    rw [← windowCount_eq_surviving_length]
    exact hcnt
  refine ⟨?_, ?_, ?_⟩
  · rw [List.Sorted, admitOne, List.pairwise_append]
    refine ⟨hsort.sublist (List.filter_sublist _), List.pairwise_singleton _ _, ?_⟩
    intro a ha b hb
    rw [List.mem_singleton] at hb
    rw [hb]
    exact hsurv_bdd a ha
  · intro c hc
    rw [admitOne] at hc
    rcases List.mem_append.mp hc with hc | hc
    · exact hsurv_bdd c hc
    · rw [List.mem_singleton] at hc
      rw [hc]
  · intro u hu
    have hsplit : windowCount (admitOne s now t) u =
        (surviving s now).countP (fun c => decide (u - s.period < c)) +
          [t].countP (fun c => decide (u - s.period < c)) := by
      simp [windowCount, admitOne, List.countP_append]
    rw [hsplit]
    have hsingle : [t].countP (fun c => decide (u - s.period < c)) ≤ 1 :=
      le_trans (List.countP_le_length _) (by simp)
    by_cases hlen : s.max_calls ≤ (surviving s now).length
    · have hlen_eq : (surviving s now).length = s.max_calls :=
        le_antisymm hsurv_len hlen
      have hne : surviving s now ≠ [] := by
        intro hnil
        rw [hnil] at hlen_eq
        simp at hlen_eq
        omega
      obtain ⟨h, rest, hcons⟩ := List.exists_cons_of_ne_nil hne
      have hh : (surviving s now).headD 0 = h := by rw [hcons]; rfl
      have ht_ge : h + s.period ≤ t := by
        have happ_eq : admitAppendTime s now = now + (h - (now - s.period)) := by
          unfold admitAppendTime
          rw [if_pos hlen, hh]
        have hle : now + (h - (now - s.period)) ≤ t := happ_eq ▸ ht
        linarith
      have hhead_out : decide (u - s.period < h) = false := by
        apply decide_eq_false
        intro hlt
        have : h + s.period ≤ u := le_trans ht_ge hu
        linarith
      have hcount_surv : (surviving s now).countP
          (fun c => decide (u - s.period < c)) ≤ rest.length := by
        rw [hcons, List.countP_cons, hhead_out]
        simpa using List.countP_le_length _
      have hrest_len : rest.length + 1 = s.max_calls := by
        rw [← hlen_eq, hcons]
        simp
      omega
    · push_neg at hlen
      have hd : (surviving s now).countP (fun c => decide (u - s.period < c)) ≤
          (surviving s now).length := List.countP_le_length _
      omega

/-- Every valid lock-serialized run of admissions preserves the window
invariant, inductively over the schedule. -/
theorem run_inv (events : List (ℚ × ℚ)) : ∀ (s : State) (last : ℚ),
    0 < s.max_calls →
    s.calls.Sorted (· ≤ ·) →
    (∀ c ∈ s.calls, c ≤ last) →
    (∀ u, last ≤ u → windowCount s u ≤ s.max_calls) →
    validSchedule s last events = true →
    (admitRun s events).calls.Sorted (· ≤ ·) ∧
    (∀ c ∈ (admitRun s events).calls, c ≤ lastTime last events) ∧
    ∀ u, lastTime last events ≤ u →
      windowCount (admitRun s events) u ≤ s.max_calls := by
  induction events with
  | nil =>
    intro s last _ hsort hbdd hcnt _
    exact ⟨hsort, hbdd, hcnt⟩
  | cons e rest ih =>
    intro s last hmc hsort hbdd hcnt hv
    obtain ⟨now, t⟩ := e
    rw [validSchedule, Bool.and_eq_true, Bool.and_eq_true] at hv
    obtain ⟨⟨hlast, happ⟩, hvrest⟩ := hv
    have hlast' : last ≤ now := of_decide_eq_true hlast
    have happ' : admitAppendTime s now ≤ t := of_decide_eq_true happ
    have hbdd_now : ∀ c ∈ s.calls, c ≤ now :=
      fun c hc => le_trans (hbdd c hc) hlast'
    have hcnt_now : windowCount s now ≤ s.max_calls := hcnt now hlast'
    obtain ⟨hsort', hbdd', hcnt'⟩ :=
      admit_inv s now t hmc hsort hbdd_now hcnt_now happ'
    have hmc' : 0 < (admitOne s now t).max_calls := hmc
    have := ih (admitOne s now t) t hmc' hsort' hbdd' hcnt' hvrest
    simpa [admitRun, lastTime, admitOne] using this

/-- When the relevant list is sorted, its `headD` is a lower bound, so
`self.calls[0]` is the oldest surviving timestamp. -/
theorem surviving_headD_min (s : State) (now : ℚ)
    (hsort : s.calls.Sorted (· ≤ ·)) :
    ∀ c ∈ surviving s now, (surviving s now).headD 0 ≤ c := by
  have hsorted : (surviving s now).Sorted (· ≤ ·) :=
    hsort.sublist (List.filter_sublist _)
  intro c hc
  cases hsurv : surviving s now with
  | nil => rw [hsurv] at hc; cases hc
  | cons h rest =>
    rw [hsurv] at hc hsorted
    rcases List.mem_cons.mp hc with hch | hcr
    · rw [hch]; rfl
    · exact List.rel_of_sorted_cons hsorted c hcr

end RateLimiter

/-- C4: over every lock-serialized sequence of admissions starting from
an empty call log, at every observation instant from the last recorded
timestamp onward at most `max_calls` recorded timestamps are younger
than the trailing `period`; and an admission attempt that finds
`max_calls` or more surviving timestamps computes its earliest
recording instant as exactly the moment the oldest surviving timestamp
(`self.calls[0]`) ages out of the window — at that instant the blocked
caller records its new timestamp and proceeds. -/
theorem rate_limiter_window_invariant (mc : Nat) (p t0 obs : ℚ)
    (events : List (ℚ × ℚ)) (s : RateLimiter.State) (now : ℚ)
    (hmc : 0 < mc)
    (hv : RateLimiter.validSchedule ⟨mc, p, []⟩ t0 events = true)
    (hobs : RateLimiter.lastTime t0 events ≤ obs)
    (hblock : s.max_calls ≤ (RateLimiter.surviving s now).length) :
    RateLimiter.windowCount (RateLimiter.admitRun ⟨mc, p, []⟩ events) obs ≤ mc ∧
    RateLimiter.admitAppendTime s now =
      (RateLimiter.surviving s now).headD 0 + s.period ∧
    ¬ RateLimiter.admitAppendTime s now - s.period <
        (RateLimiter.surviving s now).headD 0 := by
  have happ : RateLimiter.admitAppendTime s now =
      (RateLimiter.surviving s now).headD 0 + s.period := by
    unfold RateLimiter.admitAppendTime
    rw [if_pos hblock]
    ring
  refine ⟨?_, happ, ?_⟩
  · have hinit_cnt : ∀ u, t0 ≤ u →
        RateLimiter.windowCount ⟨mc, p, []⟩ u ≤
          (RateLimiter.State.mk mc p []).max_calls := by
      intro u _
      simp [RateLimiter.windowCount]
    have h := RateLimiter.run_inv events ⟨mc, p, []⟩ t0 hmc
      List.sorted_nil (by intro c hc; cases hc) hinit_cnt hv
    exact h.2.2 obs hobs
  · rw [happ]
    intro hlt
    have : (RateLimiter.surviving s now).headD 0 <
        (RateLimiter.surviving s now).headD 0 := by linarith
    exact lt_irrefl _ this

/-- C4 witness: `max_calls = 1`, `period = 10`, two admissions — the
first at instant 0 and the second arriving at instant 5, which finds
one surviving timestamp, sleeps until instant 10 (the moment timestamp
0 ages out of the window), and records there; the invariant holds at
observation instant 10. -/
theorem rate_limiter_window_invariant_witness :
    (0 < 1 ∧
      RateLimiter.validSchedule ⟨1, 10, []⟩ 0 [(0, 0), (5, 10)] = true ∧
      RateLimiter.lastTime 0 [(0, 0), (5, 10)] ≤ 10 ∧
      (RateLimiter.State.mk 1 10 [0]).max_calls ≤
        (RateLimiter.surviving ⟨1, 10, [0]⟩ 5).length) ∧
    RateLimiter.windowCount
        (RateLimiter.admitRun ⟨1, 10, []⟩ [(0, 0), (5, 10)]) 10 ≤ 1 ∧
    RateLimiter.admitAppendTime ⟨1, 10, [0]⟩ 5 =
      (RateLimiter.surviving ⟨1, 10, [0]⟩ 5).headD 0 + 10 ∧
    ¬ RateLimiter.admitAppendTime ⟨1, 10, [0]⟩ 5 - 10 <
        (RateLimiter.surviving ⟨1, 10, [0]⟩ 5).headD 0 := by
  have hv : RateLimiter.validSchedule ⟨1, 10, []⟩ 0 [(0, 0), (5, 10)] = true := by
    norm_num [RateLimiter.validSchedule, RateLimiter.admitAppendTime,
      RateLimiter.surviving, RateLimiter.admitOne, List.filter]
  have hobs : RateLimiter.lastTime 0 [((0 : ℚ), (0 : ℚ)), (5, 10)] ≤ 10 := by
    norm_num [RateLimiter.lastTime]
  have hblock : (RateLimiter.State.mk 1 10 [0]).max_calls ≤
      (RateLimiter.surviving ⟨1, 10, [0]⟩ 5).length := by
    norm_num [RateLimiter.surviving, List.filter]
  exact ⟨⟨Nat.one_pos, hv, hobs, hblock⟩,
    rate_limiter_window_invariant 1 10 0 10 [(0, 0), (5, 10)] ⟨1, 10, [0]⟩ 5
      Nat.one_pos hv hobs hblock⟩

end Captioner
